import Mathlib

/-!
Verification development for the django-ecommerce-api catalog core.

The repository's data model (shop/models.py) is embedded as plain record
types, a database snapshot as lists of rows, and the operations of
models.py, serializers.py and api_views.py as executable Lean functions
translated line-by-line from the Python source.  Django ORM primitives
(`objects.get`, `get_or_create`, query-set `filter`/`exists`) are modelled
by list scans with Django's documented success/error semantics.
-/

/-! ## Data model (shop/models.py) -/

/-- A row of shop.Category: id, parent FK (nullable), category_type. -/
structure CategoryRow where
  id : Nat
  parentId : Option Nat
  categoryType : String
  deriving DecidableEq

/-- A row of shop.Product with the fields the filter engine and serializer read. -/
structure ProductRow where
  id : Nat
  name : String
  description : String
  sku : String
  model : String
  categoryId : Nat
  price : Option Rat
  priceToman : Rat
  priceUsd : Option Rat
  isActive : Bool
  isNewArrival : Bool
  createdAt : Int
  deriving DecidableEq

/-- A row of shop.ProductAttribute (the legacy free-text store). -/
structure LegacyRow where
  productId : Nat
  key : String
  value : String
  deriving DecidableEq

/-- A row of shop.Attribute (the global attribute registry); `key` is unique. -/
structure AttributeRow where
  id : Nat
  key : String
  deriving DecidableEq

/-- A row of shop.NewAttributeValue (predefined choice for a global attribute). -/
structure NewValueRow where
  id : Nat
  attributeId : Nat
  value : String
  deriving DecidableEq

/-- A row of shop.ProductAttributeValue (the flexible store):
`attribute_value` FK xor `custom_value`, both nullable. -/
structure FlexRow where
  productId : Nat
  attributeId : Nat
  attributeValueId : Option Nat
  customValue : Option String
  deriving DecidableEq

/-- A row of shop.CategoryAttribute (per-category form schema); only the key
is relevant to the filter engine and serializer. -/
structure CategoryAttrRow where
  categoryId : Nat
  key : String
  deriving DecidableEq

/-- A database snapshot: one list per table used by the catalog core. -/
structure DB where
  categories : List CategoryRow
  products : List ProductRow
  legacy : List LegacyRow
  attributes : List AttributeRow
  newValues : List NewValueRow
  flex : List FlexRow
  categoryAttrs : List CategoryAttrRow
  deriving DecidableEq

/-! ## Django ORM primitives -/

/-- Error outcomes of Django's `Model.objects.get`. -/
inductive GetErr where
  | doesNotExist
  | multiple
  deriving DecidableEq

/-- Django's `objects.get(...)`: succeeds when exactly one row matches,
raises DoesNotExist on zero matches and MultipleObjectsReturned otherwise. -/
def djangoGet (l : List α) (p : α → Bool) : Except GetErr α :=
  match l.filter p with
  | [a] => .ok a
  | [] => .error .doesNotExist
  | _ => .error .multiple

/-! ## Category effective type (Category.get_effective_category_type) -/

/-- `self.subcategories.exists()`: some category has this one as parent. -/
def hasSubcategories (db : DB) (c : CategoryRow) : Bool :=
  db.categories.any (fun s => s.parentId == some c.id)

/-- `self.product_set.filter(is_active=True).exists()`. -/
def hasActiveDirectProducts (db : DB) (c : CategoryRow) : Bool :=
  db.products.any (fun p => p.categoryId == c.id && p.isActive)

/-- Category.get_effective_category_type, translated from shop/models.py. -/
def get_effective_category_type (db : DB) (c : CategoryRow) : String :=
  if c.categoryType ≠ "auto" then c.categoryType
  else
    let hs := hasSubcategories db c
    let hp := hasActiveDirectProducts db c
    if hs && !hp then "container"
    else if !hs && hp then "direct"
    else if hs && hp then "container"
    else "direct"

/-! ## Theorems for claim C3 -/

/-- C3: for every category whose category_type is "auto", the resolved
effective type follows the four-case table: subcategories and no active
direct products → container; active direct products and no subcategories →
direct; both → container; neither → direct. -/
theorem c3_auto_effective_type_table (db : DB) (c : CategoryRow)
    (h : c.categoryType = "auto") :
    (hasSubcategories db c = true → hasActiveDirectProducts db c = false →
        get_effective_category_type db c = "container") ∧
    (hasSubcategories db c = false → hasActiveDirectProducts db c = true →
        get_effective_category_type db c = "direct") ∧
    (hasSubcategories db c = true → hasActiveDirectProducts db c = true →
        get_effective_category_type db c = "container") ∧
    (hasSubcategories db c = false → hasActiveDirectProducts db c = false →
        get_effective_category_type db c = "direct") := by
  refine ⟨?_, ?_, ?_, ?_⟩ <;> intro hs hp <;>
    simp [get_effective_category_type, h, hs, hp]

/-- The auto-category with no subcategories and no active products in a
one-category database resolves to "direct", via `c3_auto_effective_type_table`. -/
theorem c3_auto_effective_type_table_witness :
    (⟨7, none, "auto"⟩ : CategoryRow).categoryType = "auto" ∧
    get_effective_category_type ⟨[⟨7, none, "auto"⟩], [], [], [], [], [], []⟩
      ⟨7, none, "auto"⟩ = "direct" :=
  ⟨rfl, (c3_auto_effective_type_table
      ⟨[⟨7, none, "auto"⟩], [], [], [], [], [], []⟩ ⟨7, none, "auto"⟩ rfl).2.2.2
      (by decide) (by decide)⟩

/-! ## ORM helper lemmas -/

theorem djangoGet_ok_iff (l : List α) (p : α → Bool) (a : α) :
    djangoGet l p = .ok a ↔ l.filter p = [a] := by
  unfold djangoGet
  rcases h : l.filter p with _ | ⟨x, _ | ⟨y, ys⟩⟩ <;> simp

theorem djangoGet_notFound_iff (l : List α) (p : α → Bool) :
    djangoGet l p = .error .doesNotExist ↔ l.filter p = [] := by
  unfold djangoGet
  rcases h : l.filter p with _ | ⟨x, _ | ⟨y, ys⟩⟩ <;> simp

theorem filter_singleton_mem {l : List α} {p : α → Bool} {a : α}
    (h : l.filter p = [a]) : a ∈ l ∧ p a = true := by
  have ha : a ∈ l.filter p := by rw [h]; exact List.mem_singleton_self a
  exact ⟨List.mem_of_mem_filter ha, List.of_mem_filter ha⟩

theorem map_replace_of_filter_nil {l : List α} {p : α → Bool} (row : α)
    (h : l.filter p = []) :
    l.map (fun f => if p f then row else f) = l := by
  induction l with
  | nil => rfl
  | cons x xs ih =>
    rw [List.filter_cons] at h
    by_cases hx : p x = true
    · simp [hx] at h
    · simp only [List.map_cons, if_neg hx]
      simp only [hx, if_false] at h
      rw [ih h]

theorem filter_map_replace {l : List α} {p : α → Bool} {a : α} (row : α)
    (h : l.filter p = [a]) (hrow : p row = true) :
    (l.map (fun f => if p f then row else f)).filter p = [row] := by
  induction l with
  | nil => simp at h
  | cons x xs ih =>
    rw [List.filter_cons] at h
    by_cases hx : p x = true
    · rw [if_pos hx] at h
      obtain ⟨rfl, h2⟩ : x = a ∧ xs.filter p = [] := by
        simpa using h
      simp only [List.map_cons]
      rw [if_pos hx, List.filter_cons, if_pos hrow,
        map_replace_of_filter_nil row h2, h2]
    · rw [if_neg hx] at h
      simp only [List.map_cons]
      rw [if_neg hx, List.filter_cons, if_neg hx]
      exact ih h

theorem find?_id_of_nodup_map {l : List α} {f : α → Nat} {a : α}
    (hnd : (l.map f).Nodup) (ha : a ∈ l) :
    l.find? (fun x => f x == f a) = some a := by
  induction l with
  | nil => simp at ha
  | cons x xs ih =>
    rw [List.map_cons, List.nodup_cons] at hnd
    rcases List.mem_cons.mp ha with rfl | hmem
    · simp [List.find?_cons]
    · have hne : (f x == f a) = false := by
        simp only [beq_eq_false_iff_ne, ne_eq]
        intro he
        exact hnd.1 (he ▸ List.mem_map_of_mem f hmem)
      rw [List.find?_cons]
      simp only [hne]
      exact ih hnd.2 hmem

/-! ## Attribute resolver (models.py) -/

/-- ProductAttributeValue.get_display_value: the predefined value when the
attribute_value FK is set, else `custom_value or ''`.  A dangling FK id
cannot occur under referential integrity; it is mapped to the empty string. -/
def get_display_value (db : DB) (row : FlexRow) : String :=
  match row.attributeValueId with
  | some vid =>
      match db.newValues.find? (fun nv => nv.id == vid) with
      | some nv => nv.value
      | none => ""
  | none => row.customValue.getD ""

/-- Product.get_attribute_value: resolve the Attribute by key and the
flexible row by (product, attribute); a DoesNotExist on either lookup is
caught and yields None, while MultipleObjectsReturned propagates. -/
def get_attribute_value (db : DB) (pid : Nat) (key : String) :
    Except GetErr (Option String) :=
  match djangoGet db.attributes (fun a => a.key == key) with
  | .error .doesNotExist => .ok none
  | .error .multiple => .error .multiple
  | .ok attr =>
    match djangoGet db.flex
        (fun f => f.productId == pid && f.attributeId == attr.id) with
    | .error .doesNotExist => .ok none
    | .error .multiple => .error .multiple
    | .ok row => .ok (some (get_display_value db row))

/-- Error outcomes of Product.set_attribute_value. -/
inductive SetErr where
  | unknownAttribute
  | multiple
  deriving DecidableEq

/-- The value-resolution step inside Product.set_attribute_value: when the
value matches a predefined NewAttributeValue of the attribute, store the FK
and clear custom_value; otherwise store custom_value and clear the FK. -/
def assignFlexValue (db : DB) (attr : AttributeRow) (row : FlexRow) (v : String) :
    Except SetErr FlexRow :=
  match djangoGet db.newValues
      (fun nv => nv.attributeId == attr.id && nv.value == v) with
  | .ok nav => .ok { row with attributeValueId := some nav.id, customValue := none }
  | .error .doesNotExist =>
      .ok { row with attributeValueId := none, customValue := some v }
  | .error .multiple => .error .multiple

/-- Product.set_attribute_value: resolve the Attribute by key (ValueError
when absent), get_or_create the ProductAttributeValue for (product,
attribute), assign exactly one of attribute_value/custom_value, save.
Returns the updated database together with the saved row. -/
def set_attribute_value (db : DB) (pid : Nat) (key v : String) :
    Except SetErr (DB × FlexRow) :=
  match djangoGet db.attributes (fun a => a.key == key) with
  | .error .doesNotExist => .error .unknownAttribute
  | .error .multiple => .error .multiple
  | .ok attr =>
    match djangoGet db.flex
        (fun f => f.productId == pid && f.attributeId == attr.id) with
    | .error .multiple => .error .multiple
    | .error .doesNotExist =>
        match assignFlexValue db attr ⟨pid, attr.id, none, none⟩ v with
        | .error e => .error e
        | .ok row => .ok ({ db with flex := db.flex ++ [row] }, row)
    | .ok found =>
        match assignFlexValue db attr found v with
        | .error e => .error e
        | .ok row =>
            .ok ({ db with flex := db.flex.map (fun f =>
                    if f.productId == pid && f.attributeId == attr.id
                    then row else f) }, row)

/-- Successful set_attribute_value characterised: the attribute is the unique
one with the requested key, only `flex` changes, the written row is the
unique flexible row for (product, attribute) afterwards, and it stores either
the matching predefined value (custom cleared) or the custom value (FK
cleared). -/
theorem set_attribute_value_ok_spec {db db' : DB} {row : FlexRow}
    {pid : Nat} {key v : String}
    (hset : set_attribute_value db pid key v = .ok (db', row)) :
    ∃ attr,
      db.attributes.filter (fun a => a.key == key) = [attr] ∧
      db'.attributes = db.attributes ∧
      db'.newValues = db.newValues ∧
      db'.flex.filter
        (fun f => f.productId == pid && f.attributeId == attr.id) = [row] ∧
      row ∈ db'.flex ∧
      ((∃ nav, db.newValues.filter
            (fun nv => nv.attributeId == attr.id && nv.value == v) = [nav] ∧
          row.attributeValueId = some nav.id ∧ row.customValue = none) ∨
       (db.newValues.filter
            (fun nv => nv.attributeId == attr.id && nv.value == v) = [] ∧
          row.attributeValueId = none ∧ row.customValue = some v)) := by
  unfold set_attribute_value at hset
  split at hset
  · simp at hset
  · simp at hset
  case _ attr hA =>
    refine ⟨attr, (djangoGet_ok_iff _ _ _).mp hA, ?_⟩
    split at hset
    · simp at hset
    case _ hF =>
      have hfe := (djangoGet_notFound_iff _ _).mp hF
      split at hset
      · simp at hset
      case _ row0 hR =>
        simp only [Except.ok.injEq, Prod.mk.injEq] at hset
        obtain ⟨rfl, rfl⟩ := hset
        unfold assignFlexValue at hR
        split at hR
        case _ nav hN =>
          simp only [Except.ok.injEq] at hR
          subst hR
          refine ⟨rfl, rfl, ?_, ?_,
            Or.inl ⟨nav, (djangoGet_ok_iff _ _ _).mp hN, rfl, rfl⟩⟩
          · rw [List.filter_append, hfe]
            simp
          · simp
        case _ hN =>
          simp only [Except.ok.injEq] at hR
          subst hR
          refine ⟨rfl, rfl, ?_, ?_,
            Or.inr ⟨(djangoGet_notFound_iff _ _).mp hN, rfl, rfl⟩⟩
          · rw [List.filter_append, hfe]
            simp
          · simp
        · simp at hR
    case _ found hF =>
      have hff := (djangoGet_ok_iff _ _ _).mp hF
      have hpfound := (filter_singleton_mem hff).2
      split at hset
      · simp at hset
      case _ row0 hR =>
        simp only [Except.ok.injEq, Prod.mk.injEq] at hset
        obtain ⟨rfl, rfl⟩ := hset
        unfold assignFlexValue at hR
        split at hR
        case _ nav hN =>
          simp only [Except.ok.injEq] at hR
          subst hR
          refine ⟨rfl, rfl, ?_, ?_,
            Or.inl ⟨nav, (djangoGet_ok_iff _ _ _).mp hN, rfl, rfl⟩⟩
          · exact filter_map_replace _ hff hpfound
          · exact List.mem_map.mpr
              ⟨found, (filter_singleton_mem hff).1, by rw [if_pos hpfound]⟩
        case _ hN =>
          simp only [Except.ok.injEq] at hR
          subst hR
          refine ⟨rfl, rfl, ?_, ?_,
            Or.inr ⟨(djangoGet_notFound_iff _ _).mp hN, rfl, rfl⟩⟩
          · exact filter_map_replace _ hff hpfound
          · exact List.mem_map.mpr
              ⟨found, (filter_singleton_mem hff).1, by rw [if_pos hpfound]⟩
        · simp at hR

/-! ## Theorems for claim C5 -/

/-- C5: setting an attribute value and then reading the display value for
the same (product, key) round-trips the exact value — through the
predefined path when the value matches a NewAttributeValue of the attribute
(custom_value cleared) and through the custom path otherwise
(attribute_value cleared) — and the written row never has both
attribute_value and custom_value set. -/
theorem c5_set_then_get_roundtrip (db db' : DB) (row : FlexRow)
    (pid : Nat) (key v : String)
    (hids : (db.newValues.map (fun nv => nv.id)).Nodup)
    (hset : set_attribute_value db pid key v = .ok (db', row)) :
    get_attribute_value db' pid key = .ok (some v) ∧
    ¬(row.attributeValueId ≠ none ∧ row.customValue ≠ none) := by
  obtain ⟨attr, hAf, hattrs, hnv, hflexf, hmem, hcase⟩ :=
    set_attribute_value_ok_spec hset
  have hA' : djangoGet db'.attributes (fun a => a.key == key) = .ok attr := by
    rw [hattrs, djangoGet_ok_iff]
    exact hAf
  have hF' : djangoGet db'.flex
      (fun f => f.productId == pid && f.attributeId == attr.id) = .ok row :=
    (djangoGet_ok_iff _ _ _).mpr hflexf
  have hdisp : get_display_value db' row = v := by
    rcases hcase with ⟨nav, hnavf, hav, hcv⟩ | ⟨hnone, hav, hcv⟩
    · obtain ⟨hnavmem, hnavp⟩ := filter_singleton_mem hnavf
      have hval : nav.value = v := by
        simp only [Bool.and_eq_true, beq_iff_eq] at hnavp
        exact hnavp.2
      have hfind : db'.newValues.find? (fun nv => nv.id == nav.id) = some nav := by
        rw [hnv]
        exact find?_id_of_nodup_map hids hnavmem
      unfold get_display_value
      rw [hav]
      show (match db'.newValues.find? (fun nv => nv.id == nav.id) with
        | some nv => nv.value
        | none => "") = v
      rw [hfind]
      exact hval
    · unfold get_display_value
      rw [hav, hcv]
      rfl
  constructor
  · simp only [get_attribute_value, hA', hF', hdisp]
  · rcases hcase with ⟨nav, _, hav, hcv⟩ | ⟨_, hav, hcv⟩
    · exact fun hb => hb.2 hcv
    · exact fun hb => hb.1 hav

/-- A concrete database against which the round-trip is exercised:
one registered attribute "color" with the predefined value "Black". -/
def dbRound : DB :=
  { categories := [], products := [], legacy := [],
    attributes := [⟨1, "color"⟩], newValues := [⟨10, 1, "Black"⟩],
    flex := [], categoryAttrs := [] }

/-- dbRound after set_attribute_value on product 2. -/
def dbRound' : DB :=
  { dbRound with flex := [⟨2, 1, some 10, none⟩] }

/-- Concrete round trip through `c5_set_then_get_roundtrip`: setting
"color" to the predefined "Black" on product 2 and reading it back. -/
theorem c5_set_then_get_roundtrip_witness :
    set_attribute_value dbRound 2 "color" "Black" =
      .ok (dbRound', ⟨2, 1, some 10, none⟩) ∧
    get_attribute_value dbRound' 2 "color" = .ok (some "Black") :=
  ⟨rfl, (c5_set_then_get_roundtrip dbRound dbRound' ⟨2, 1, some 10, none⟩
      2 "color" "Black" (by simp [dbRound]) rfl).1⟩

/-! ## Theorems for claim C6 -/

/-- C6 (amended): Product.get_attribute_value looks up the flexible row for
(product, attribute with the requested key) and, when found, returns its
display value — attribute_value's value when the FK is set, custom_value
otherwise; when the attribute or the flexible row is missing it returns
None. It never reads the legacy ProductAttribute store. -/
theorem c6_get_attribute_value_no_legacy_fallback (db : DB) (pid : Nat)
    (key : String) :
    (∀ L, get_attribute_value { db with legacy := L } pid key =
        get_attribute_value db pid key) ∧
    (∀ attr row,
        djangoGet db.attributes (fun a => a.key == key) = .ok attr →
        djangoGet db.flex
          (fun f => f.productId == pid && f.attributeId == attr.id) = .ok row →
        get_attribute_value db pid key = .ok (some (get_display_value db row)) ∧
        (row.attributeValueId = none →
          get_display_value db row = row.customValue.getD "")) ∧
    (∀ attr,
        djangoGet db.attributes (fun a => a.key == key) = .ok attr →
        djangoGet db.flex
          (fun f => f.productId == pid && f.attributeId == attr.id) =
          .error .doesNotExist →
        get_attribute_value db pid key = .ok none) ∧
    (djangoGet db.attributes (fun a => a.key == key) = .error .doesNotExist →
      get_attribute_value db pid key = .ok none) := by
  refine ⟨fun L => rfl, ?_, ?_, ?_⟩
  · intro attr row hA hF
    constructor
    · simp only [get_attribute_value, hA, hF]
    · intro hnone
      unfold get_display_value
      rw [hnone]
  · intro attr hA hF
    simp only [get_attribute_value, hA, hF]
  · intro hA
    simp only [get_attribute_value, hA]

/-- A database where the legacy store holds color=Red for product 1 but the
flexible store has no row for it. -/
def dbLegacyOnly : DB :=
  { categories := [], products := [], legacy := [⟨1, "color", "Red"⟩],
    attributes := [⟨1, "color"⟩], newValues := [], flex := [],
    categoryAttrs := [] }

/-- Counterexample to C6 as stated: with a legacy row color=Red for
product 1 and no flexible row, get_attribute_value returns None — it does
not fall back to the legacy value "Red". -/
theorem c6_no_legacy_fallback_counterexample :
    dbLegacyOnly.legacy = [⟨1, "color", "Red"⟩] ∧
    get_attribute_value dbLegacyOnly 1 "color" = .ok none ∧
    (Except.ok (some "Red") : Except GetErr (Option String)) ≠ .ok none :=
  ⟨rfl, rfl, by simp⟩

/-- get_attribute_value ignores the legacy table, concretely on
dbLegacyOnly, via `c6_get_attribute_value_no_legacy_fallback`. -/
theorem c6_get_attribute_value_no_legacy_fallback_witness :
    get_attribute_value { dbLegacyOnly with legacy := [] } 1 "color" =
      get_attribute_value dbLegacyOnly 1 "color" :=
  (c6_get_attribute_value_no_legacy_fallback dbLegacyOnly 1 "color").1 []

/-! ## Category tree traversal (Category.get_all_subcategories) -/

/-- `self.subcategories.all()` as the list of direct child ids. -/
def subcatChildren (db : DB) (cid : Nat) : List Nat :=
  (db.categories.filter (fun c => c.parentId == some cid)).map (fun c => c.id)

/-- Big-step semantics of Category.get_all_subcategories: a call on `c`
returns the direct children followed by, for each direct child in order,
that child's full recursive result.  The Python method is unguarded
recursion over the parent relation — no visited set, no depth bound — so a
result exists exactly when that recursion terminates. -/
inductive SubcatComputes (children : Nat → List Nat) : Nat → List Nat → Prop where
  | step (c : Nat) (f : Nat → List Nat)
      (h : ∀ d, d ∈ children c → SubcatComputes children d (f d)) :
      SubcatComputes children c (children c ++ (children c).flatMap f)

/-- get_all_subcategories terminates on the start node: some result exists. -/
def subcatTerminates (children : Nat → List Nat) (c : Nat) : Prop :=
  ∃ r, SubcatComputes children c r

/-- A two-category database whose parent chain is a cycle: 0 ↔ 1. -/
def dbCycle : DB :=
  { categories := [⟨0, some 1, "auto"⟩, ⟨1, some 0, "auto"⟩],
    products := [], legacy := [], attributes := [], newValues := [],
    flex := [], categoryAttrs := [] }

/-- Counterexample to C4 as stated: on the cyclic parent chain of dbCycle
the traversal of get_all_subcategories does not terminate at all — there is
no cycle guard and no CategoryTreeCorrupt error in the code. -/
theorem c4_cycle_no_termination_counterexample :
    ¬ subcatTerminates (subcatChildren dbCycle) 0 := by
  have key : ∀ c r, SubcatComputes (subcatChildren dbCycle) c r →
      c = 0 ∨ c = 1 → False := by
    intro c r h
    induction h with
    | step c f hf ih =>
      intro hc
      rcases hc with rfl | rfl
      · exact ih 1 (by decide) (Or.inr rfl)
      · exact ih 0 (by decide) (Or.inl rfl)
  rintro ⟨r, h⟩
  exact key 0 r h (Or.inl rfl)

/-- C4 (amended): the traversal terminates on every parent/child relation
that is well-founded below the start node — in particular on every finite
acyclic category tree; the code has no cycle guard and no
CategoryTreeCorrupt error, and on a cyclic chain the recursion never
terminates (see the counterexample). -/
theorem c4_subcat_terminates_of_acc (children : Nat → List Nat) (c : Nat)
    (h : Acc (fun a b => a ∈ children b) c) :
    subcatTerminates children c := by
  induction h with
  | intro c hacc ih =>
    classical
    refine ⟨_, SubcatComputes.step c
      (fun d => if hd : subcatTerminates children d then hd.choose else []) ?_⟩
    intro d hd
    have ht : subcatTerminates children d := ih d hd
    show SubcatComputes children d
      (if hd : subcatTerminates children d then hd.choose else [])
    rw [dif_pos ht]
    exact ht.choose_spec

/-- Concrete termination through `c4_subcat_terminates_of_acc`: node 5 of
dbCycle has no children, so its traversal terminates. -/
theorem c4_subcat_terminates_of_acc_witness :
    subcatTerminates (subcatChildren dbCycle) 5 :=
  c4_subcat_terminates_of_acc (subcatChildren dbCycle) 5
    (Acc.intro 5 (fun y hy => nomatch (show y ∈ ([] : List Nat) from hy)))

/-! ## Product attribute serialization (ProductSerializer.get_attributes) -/

/-- The serializer's key rename: the Persian key "برند" is exposed as "brand". -/
def renameKey (k : String) : String := if k == "برند" then "brand" else k

/-- Flexible-store entries for a product, in row order: (renamed key,
display value), skipping empty display values — the first collection loop
of ProductSerializer.get_attributes. -/
def productFlexEntries (db : DB) (pid : Nat) : List (String × String) :=
  db.flex.filterMap fun f =>
    if f.productId == pid then
      match db.attributes.find? (fun a => a.id == f.attributeId) with
      | some a =>
          if get_display_value db f == "" then none
          else some (renameKey a.key, get_display_value db f)
      | none => none
    else none

/-- Legacy-store entries for a product, in row order — the second
collection loop of ProductSerializer.get_attributes. -/
def productLegacyEntries (db : DB) (pid : Nat) : List (String × String) :=
  db.legacy.filterMap fun l =>
    if l.productId == pid then
      if l.value == "" then none else some (renameKey l.key, l.value)
    else none

/-- The serializer's seen-set loop: keep the first occurrence of each key. -/
def dedupByKey : List (String × String) → List String → List (String × String)
  | [], _ => []
  | e :: rest, seen =>
    if e.1 ∈ seen then dedupByKey rest seen
    else e :: dedupByKey rest (e.1 :: seen)

/-- allowed_keys: the CategoryAttribute keys of the product's category. -/
def allowedKeys (db : DB) (p : ProductRow) : List String :=
  (db.categoryAttrs.filter (fun ca => ca.categoryId == p.categoryId)).map
    (fun ca => ca.key)

/-- ProductSerializer.get_attributes: flexible entries first, then legacy
entries, first occurrence per key kept, then — only when the category
defines at least one CategoryAttribute key — restricted to those keys. -/
def get_attributes (db : DB) (p : ProductRow) : List (String × String) :=
  let uniq :=
    dedupByKey (productFlexEntries db p.id ++ productLegacyEntries db p.id) []
  if (allowedKeys db p).isEmpty then uniq
  else uniq.filter (fun e => decide (e.1 ∈ allowedKeys db p))

theorem find?_dedupByKey (l : List (String × String)) (k : String)
    (seen : List String) (hseen : k ∉ seen) :
    (dedupByKey l seen).find? (fun e => e.1 == k) =
      l.find? (fun e => e.1 == k) := by
  induction l generalizing seen with
  | nil => rfl
  | cons e rest ih =>
    simp only [dedupByKey]
    by_cases hc : e.1 ∈ seen
    · rw [if_pos hc]
      have hek : (e.1 == k) = false := by
        rw [beq_eq_false_iff_ne]
        rintro rfl
        exact hseen hc
      rw [List.find?_cons]
      simp only [hek]
      exact ih seen hseen
    · rw [if_neg hc, List.find?_cons, List.find?_cons]
      cases hek : (e.1 == k) with
      | true => simp only [hek]
      | false =>
        simp only [hek]
        refine ih _ ?_
        intro hk
        rcases List.mem_cons.mp hk with rfl | hk2
        · simp at hek
        · exact hseen hk2

theorem find?_filter_key {l : List (String × String)}
    {q : String × String → Bool} {k : String} {e : String × String}
    (hf : l.find? (fun x => x.1 == k) = some e) (hq : q e = true) :
    (l.filter q).find? (fun x => x.1 == k) = some e := by
  induction l with
  | nil => simp at hf
  | cons x xs ih =>
    rw [List.find?_cons] at hf
    cases hxk : (x.1 == k) with
    | true =>
      simp only [hxk] at hf
      obtain rfl : x = e := by simpa using hf
      rw [List.filter_cons, if_pos hq, List.find?_cons]
      simp only [hxk]
    | false =>
      simp only [hxk] at hf
      rw [List.filter_cons]
      by_cases hqx : q x = true
      · rw [if_pos hqx, List.find?_cons]
        simp only [hxk]
        exact ih hf
      · rw [if_neg hqx]
        exact ih hf

/-! ## Theorems for claim C9 -/

/-- C9: in the serializer's attribute projection, a key found in the
flexible store wins over any legacy row with the same key — flexible
entries are collected first and the deduplication keeps the first
occurrence per key — and when the product's category defines a non-empty
CategoryAttribute key set, every returned key belongs to that set. -/
theorem c9_serializer_flexible_wins (db : DB) (p : ProductRow) (k v : String)
    (hfind : (productFlexEntries db p.id).find? (fun e => e.1 == k) =
      some (k, v))
    (hallow : (allowedKeys db p).isEmpty = true ∨ k ∈ allowedKeys db p) :
    (get_attributes db p).find? (fun e => e.1 == k) = some (k, v) ∧
    ((allowedKeys db p).isEmpty = false →
      ∀ e ∈ get_attributes db p, e.1 ∈ allowedKeys db p) := by
  have h1 : ((productFlexEntries db p.id ++ productLegacyEntries db p.id).find?
      (fun e => e.1 == k)) = some (k, v) := by
    rw [List.find?_append, hfind]
    rfl
  have h2 : (dedupByKey
      (productFlexEntries db p.id ++ productLegacyEntries db p.id) []).find?
      (fun e => e.1 == k) = some (k, v) := by
    rw [find?_dedupByKey _ _ _ (by simp)]
    exact h1
  constructor
  · unfold get_attributes
    by_cases he : (allowedKeys db p).isEmpty = true
    · rw [if_pos he]
      exact h2
    · rw [if_neg he]
      rcases hallow with h | h
      · exact absurd h he
      · exact find?_filter_key h2 (by simpa using h)
  · intro hne e he
    have hne' : ¬((allowedKeys db p).isEmpty = true) := by simp [hne]
    unfold get_attributes at he
    rw [if_neg hne'] at he
    simpa using (List.mem_filter.mp he).2

/-- A database where product 1 (category 3) has flexible color=Black and
legacy color=Red, with color among category 3's CategoryAttribute keys. -/
def dbSer : DB :=
  { categories := [],
    products := [⟨1, "p", "", "", "", 3, none, 0, none, true, false, 0⟩],
    legacy := [⟨1, "color", "Red"⟩],
    attributes := [⟨1, "color"⟩],
    newValues := [],
    flex := [⟨1, 1, none, some "Black"⟩],
    categoryAttrs := [⟨3, "color"⟩] }

/-- The product row of dbSer. -/
def pSer : ProductRow := ⟨1, "p", "", "", "", 3, none, 0, none, true, false, 0⟩

/-- Concretely, the serializer returns the flexible value "Black" for
"color", not the legacy "Red", via `c9_serializer_flexible_wins`. -/
theorem c9_serializer_flexible_wins_witness :
    (get_attributes dbSer pSer).find? (fun e => e.1 == "color") =
      some ("color", "Black") :=
  (c9_serializer_flexible_wins dbSer pSer "color" "Black" rfl
    (Or.inr (by decide))).1

/-! ## Pagination (ProductPagination and api_unified_products) -/

/-- Decimal value of a digit string. -/
def digitsVal (cs : List Char) : Nat :=
  cs.foldl (fun n c => n * 10 + (c.toNat - 48)) 0

/-- Strip whitespace from both ends of a character list. -/
def pyStrip (cs : List Char) : List Char :=
  ((cs.dropWhile Char.isWhitespace).reverse.dropWhile Char.isWhitespace).reverse

/-- Python int() on a decimal string: optional surrounding whitespace,
optional sign, digits. -/
def pyInt (s : String) : Option Int :=
  match pyStrip s.data with
  | '-' :: rest =>
      if !rest.isEmpty && rest.all Char.isDigit then
        some (-(digitsVal rest : Int))
      else none
  | '+' :: rest =>
      if !rest.isEmpty && rest.all Char.isDigit then some (digitsVal rest)
      else none
  | cs =>
      if !cs.isEmpty && cs.all Char.isDigit then some (digitsVal cs)
      else none

/-- DRF PageNumberPagination.get_page_size for ProductPagination
(page_size 20, page_size_query_param "per_page", max_page_size 100): a
positive integer parameter is capped at 100; anything else falls back to
the default 20. -/
def drfPageSize (perPageParam : Option String) : Nat :=
  match perPageParam with
  | none => 20
  | some s =>
    match pyInt s with
    | some n => if n ≤ 0 then 20 else min n.toNat 100
    | none => 20

/-- Django Paginator.num_pages with allow_empty_first_page: at least one
page; ceiling division of the item count by the page size. -/
def numPages (count size : Nat) : Nat := (max 1 count + size - 1) / size

/-- The items of 1-based page n at the given page size. -/
def pageSlice (items : List α) (size n : Nat) : List α :=
  (items.drop ((n - 1) * size)).take size

/-- DRF paginate_queryset as configured by ProductPagination: the page
parameter defaults to "1", the string "last" selects the final page, and a
non-integer or out-of-range page number raises NotFound (an HTTP 404) —
there is no clamping.  Returns (page items, current page, total pages). -/
def drfPaginate (items : List α) (pageParam perPageParam : Option String) :
    Except String (List α × Nat × Nat) :=
  let size := drfPageSize perPageParam
  let np := numPages items.length size
  let pstr := pageParam.getD "1"
  let pnum : Option Int := if pstr == "last" then some (np : Int) else pyInt pstr
  match pnum with
  | none => .error "NotFound"
  | some n =>
      if 1 ≤ n ∧ n ≤ (np : Int) then .ok (pageSlice items size n.toNat, n.toNat, np)
      else .error "NotFound"

/-- The pagination step of api_unified_products: Paginator(products, limit)
with `try: page(page) except: page(1)`.  The limit comes straight from
int() with no cap; limit 0 would crash inside Django (surfaced as the
endpoint's HTTP 500 handler), returned as an error here.  Returns
(page items, current page, total pages, items_per_page). -/
def unifiedPaginate (items : List α) (page : Int) (limit : Nat) :
    Except String (List α × Nat × Nat × Nat) :=
  if limit == 0 then .error "500"
  else
    let np := numPages items.length limit
    let n := if 1 ≤ page ∧ page ≤ (np : Int) then page.toNat else 1
    .ok (pageSlice items limit n, n, np, limit)

/-! ## Theorems for claim C8 -/

/-- Counterexample to C8 as stated: with the default page size 20 a 40-item
result set has 2 pages, and requesting page 999 through the DRF paginator
used by the filter views yields a NotFound error instead of clamping to
page 1; moreover api_unified_products does not cap its per-page limit at
100 (limit 1000 is used as-is). -/
theorem c8_pagination_counterexample :
    numPages (List.range 40).length (drfPageSize none) = 2 ∧
    drfPaginate (List.range 40) (some "999") none = .error "NotFound" ∧
    unifiedPaginate (List.range 40) 1 1000 = .ok (List.range 40, 1, 1, 1000) := by
  refine ⟨rfl, rfl, ?_⟩
  simp [unifiedPaginate, numPages, pageSlice, List.take_of_length_le]

/-- C8 (amended): in the DRF ProductPagination used by the filter views,
a per_page above 100 is capped at 100 but a page beyond the last page
raises NotFound rather than clamping; in api_unified_products a page
outside the valid range is clamped to page 1 and answered normally, but
the per-page limit is not capped at 100. -/
theorem c8_pagination_policies :
    (∀ s n, pyInt s = some n → 100 < n → drfPageSize (some s) = 100) ∧
    (∀ (items : List Nat) (s : String) (n : Int), (s == "last") = false →
        pyInt s = some n →
        (numPages items.length (drfPageSize none) : Int) < n →
        drfPaginate items (some s) none = .error "NotFound") ∧
    (∀ (items : List Nat) (page : Int) (limit : Nat), limit ≠ 0 →
        ¬(1 ≤ page ∧ page ≤ (numPages items.length limit : Int)) →
        unifiedPaginate items page limit = unifiedPaginate items 1 limit) ∧
    (∀ (items : List Nat) (limit : Nat) (out : List Nat) (cur np ipp : Nat),
        unifiedPaginate items 1 limit = .ok (out, cur, np, ipp) →
        ipp = limit) := by
  refine ⟨?_, ?_, ?_, ?_⟩
  · intro s n hp h100
    simp only [drfPageSize, hp]
    rw [if_neg (by omega)]
    have : n.toNat ≥ 100 := by omega
    omega
  · intro items s n hlast hp hgt
    simp only [drfPaginate, Option.getD_some, hlast, Bool.false_eq_true,
      if_false, hp]
    rw [if_neg (by omega)]
  · intro items page limit hl hrange
    have hl' : (limit == 0) = false := by simpa using hl
    have hnp : 1 ≤ numPages items.length limit := by
      have h1 : 1 ≤ max 1 items.length := le_max_left _ _
      have h2 : limit ≤ max 1 items.length + limit - 1 := by omega
      exact (Nat.one_le_div_iff (by omega)).mpr h2
    simp only [unifiedPaginate, hl', Bool.false_eq_true, if_false]
    rw [if_neg hrange, if_pos ⟨le_refl _, by exact_mod_cast hnp⟩]
    rfl
  · intro items limit out cur np ipp h
    unfold unifiedPaginate at h
    split at h
    · exact Except.noConfusion h
    · simp only [Except.ok.injEq, Prod.mk.injEq] at h
      exact h.2.2.2.symm

/-- Concrete instances through `c8_pagination_policies`: per_page 1000 is
capped at 100 by the DRF paginator, and page 999 of a 40-item (2-page)
result raises NotFound. -/
theorem c8_pagination_policies_witness :
    drfPageSize (some "1000") = 100 ∧
    drfPaginate (List.range 40) (some "999") none = .error "NotFound" :=
  ⟨c8_pagination_policies.1 "1000" 1000 rfl (by decide),
   c8_pagination_policies.2.1 (List.range 40) "999" 999 rfl rfl (by decide)⟩

/-! ## Filter request model (api_views.py) -/

/-- A query string: ordered (key, value) pairs; repeated keys allowed. -/
abbrev Query := List (String × String)

/-- QueryDict.getlist(key): every value supplied for the key, in order. -/
def getlist (q : Query) (k : String) : List String :=
  q.filterMap (fun kv => if kv.1 == k then some kv.2 else none)

/-- QueryDict.get(key): the last value supplied for the key. -/
def qget (q : Query) (k : String) : Option String :=
  (getlist q k).getLast?

/-- QueryDict.keys(): the distinct keys in first-occurrence order. -/
def uniqueKeys : Query → List String → List String
  | [], _ => []
  | kv :: rest, seen =>
    if kv.1 ∈ seen then uniqueKeys rest seen
    else kv.1 :: uniqueKeys rest (kv.1 :: seen)

/-- Python "v.strip()" truthiness: the value is non-blank. -/
def nonBlank (v : String) : Bool := !(pyStrip v.data).isEmpty

/-- Python s.lower(). -/
def pyLower (s : String) : String := ⟨s.data.map Char.toLower⟩

/-- key.startswith('price') and ('__gte' in key or '__lte' in key) —
the general view's price-key test. -/
def isPriceKey (k : String) : Bool :=
  "price".data.isPrefixOf k.data &&
    (decide ("__gte".data <:+: k.data) || decide ("__lte".data <:+: k.data))

/-- The special keys recognised by ProductsFilterView. -/
def specialKeyList : List String :=
  ["category", "q", "search", "page", "per_page", "is_new_arrival", "is_active"]

/-- The truthy strings of the boolean overrides. -/
def trueStrings : List String := ["true", "1", "yes"]

/-- The falsy strings of the boolean overrides. -/
def falseStrings : List String := ["false", "0", "no"]

/-- The initial scope of ProductsFilterView: all active products. -/
def activeProducts (db : DB) : List ProductRow :=
  db.products.filter (fun p => p.isActive)

/-- products.values_list('legacy_attribute_set__key'): the keys of legacy
rows joined to an active product (the query's None entries removed). -/
def legacyKeysOf (db : DB) : List String :=
  db.legacy.filterMap (fun l =>
    if (activeProducts db).any (fun p => p.id == l.productId) then some l.key
    else none)

/-- products.values_list('attribute_values__attribute__key') over the
active scope (None entries removed). -/
def flexKeysOf (db : DB) : List String :=
  db.flex.filterMap (fun f =>
    if (activeProducts db).any (fun p => p.id == f.productId) then
      (db.attributes.find? (fun a => a.id == f.attributeId)).map (fun a => a.key)
    else none)

/-- all_attribute_keys: the union of the legacy and flexible key sets. -/
def allAttrKeys (db : DB) : List String := legacyKeysOf db ++ flexKeysOf db

/-- The attribute-filter bucket of ProductsFilterView: for each distinct
query key that is a known attribute key, its non-blank values. -/
def multiBucket (db : DB) (q : Query) : List (String × List String) :=
  (uniqueKeys q []).filterMap fun k =>
    if k ∈ allAttrKeys db then
      let vs := (getlist q k).filter nonBlank
      if vs.isEmpty then none else some (k, vs)
    else none

/-- The price-filter bucket of ProductsFilterView (reached only when the
key is not an attribute key — the source's elif chain). -/
def priceBucket (db : DB) (q : Query) : List (String × String) :=
  (uniqueKeys q []).filterMap fun k =>
    if k ∈ allAttrKeys db then none
    else if isPriceKey k then
      match qget q k with
      | some v => if nonBlank v then some (k, v) else none
      | none => none
    else none

/-- The special-filter bucket of ProductsFilterView. -/
def specialBucket (db : DB) (q : Query) : List (String × String) :=
  (uniqueKeys q []).filterMap fun k =>
    if k ∈ allAttrKeys db then none
    else if isPriceKey k then none
    else if k ∈ specialKeyList then
      match qget q k with
      | some v => if nonBlank v then some (k, v) else none
      | none => none
    else none

/-- Dictionary lookup in a collected bucket. -/
def sfind (l : List (String × String)) (k : String) : Option String :=
  (l.find? (fun kv => kv.1 == k)).map (fun kv => kv.2)

/-! ## Filter application stages (ProductsFilterView.get) -/

/-- Python float() on a plain decimal literal (optional whitespace, sign,
digits with at most one point; exponent and inf/nan forms are not
modelled — the endpoints only meet plain decimals). -/
def pyFloat (s : String) : Option Rat :=
  let signed : List Char → Option Rat := fun cs =>
    match cs.splitOn '.' with
    | [a] => if !a.isEmpty && a.all Char.isDigit then some (digitsVal a) else none
    | [a, b] =>
        if (a.all Char.isDigit && b.all Char.isDigit) &&
            !(a.isEmpty && b.isEmpty) then
          some ((digitsVal a : Rat) + (digitsVal b : Rat) / ((10 : Rat) ^ b.length))
        else none
    | _ => none
  match pyStrip s.data with
  | '-' :: rest => (signed rest).map (fun r => -r)
  | '+' :: rest => signed rest
  | cs => signed cs

/-- The two directions of a price range lookup. -/
inductive PriceCmp where
  | gte
  | lte
  deriving DecidableEq

/-- The Django field lookups a collected price key can name; any other key
handed to queryset.filter raises FieldError. -/
def priceLookup (k : String) : Option ((ProductRow → Option Rat) × PriceCmp) :=
  if k == "price__gte" then some ((fun p => p.price), .gte)
  else if k == "price__lte" then some ((fun p => p.price), .lte)
  else if k == "price_toman__gte" then some ((fun p => some p.priceToman), .gte)
  else if k == "price_toman__lte" then some ((fun p => some p.priceToman), .lte)
  else if k == "price_usd__gte" then some ((fun p => p.priceUsd), .gte)
  else if k == "price_usd__lte" then some ((fun p => p.priceUsd), .lte)
  else none

/-- One price comparison; SQL semantics: a NULL field fails the test. -/
def priceTest (fld : ProductRow → Option Rat) (c : PriceCmp) (x : Rat)
    (p : ProductRow) : Bool :=
  match fld p with
  | some r =>
    match c with
    | .gte => decide (x ≤ r)
    | .lte => decide (r ≤ x)
  | none => false

/-- Errors a filter request can end in. -/
inductive ViewErr where
  | categoryNotFound
  | fieldError
  | multiple
  deriving DecidableEq

/-- The price-filter loop: float(value) — on failure the filter is skipped
(`continue`) — then queryset.filter(**{key: value}). -/
def applyPrice : List (String × String) → List ProductRow →
    Except ViewErr (List ProductRow)
  | [], ps => .ok ps
  | kv :: rest, ps =>
    match pyFloat kv.2 with
    | none => applyPrice rest ps
    | some x =>
      match priceLookup kv.1 with
      | none => .error .fieldError
      | some fc => applyPrice rest (ps.filter (priceTest fc.1 fc.2 x))

/-- Case-insensitive substring match (icontains) across the searched
fields, in source order: name, description, sku, model. -/
def textSearchHit (needle : String) (p : ProductRow) : Bool :=
  decide ((pyLower needle).data <:+: (pyLower p.name).data) ||
  decide ((pyLower needle).data <:+: (pyLower p.description).data) ||
  decide ((pyLower needle).data <:+: (pyLower p.sku).data) ||
  decide ((pyLower needle).data <:+: (pyLower p.model).data)

/-- products.filter(category_id=int(value)); skipped when int() fails. -/
def applyCategoryParam (v : Option String) (ps : List ProductRow) :
    List ProductRow :=
  match v with
  | none => ps
  | some s =>
    match pyInt s with
    | some cid => ps.filter (fun p => (p.categoryId : Int) == cid)
    | none => ps

/-- The special-filter block of ProductsFilterView.get, in source order:
category, text search (q preferred over search), is_new_arrival, then the
is_active override — a falsy is_active rebuilds the scope from the inactive
products and re-applies only the category constraint. -/
def applySpecial (db : DB) (ps0 : List ProductRow)
    (sp : List (String × String)) : List ProductRow :=
  let ps1 := applyCategoryParam (sfind sp "category") ps0
  let searchQ :=
    match sfind sp "q" with
    | some s => some s
    | none => sfind sp "search"
  let ps2 :=
    match searchQ with
    | some s => ps1.filter (textSearchHit s)
    | none => ps1
  let ps3 :=
    match sfind sp "is_new_arrival" with
    | some s =>
      if pyLower s ∈ trueStrings then ps2.filter (fun p => p.isNewArrival)
      else if pyLower s ∈ falseStrings then ps2.filter (fun p => !p.isNewArrival)
      else ps2
    | none => ps2
  match sfind sp "is_active" with
  | some s =>
    if pyLower s ∈ falseStrings then
      applyCategoryParam (sfind sp "category")
        (db.products.filter (fun p => !p.isActive))
    else ps3
  | none => ps3

/-! ## Attribute filters (both views) -/

/-- Whether the flexible row's attribute (by FK) carries the given key. -/
def flexAttrKeyIs (db : DB) (f : FlexRow) (k : String) : Bool :=
  db.attributes.any (fun a => a.id == f.attributeId && a.key == k)

/-- The category restriction present in the category-scoped view's
matching-id queries. -/
def catOk (restrict : Option Nat) (p : ProductRow) : Bool :=
  match restrict with
  | some cid => p.categoryId == cid
  | none => true

/-- Ids of products with a legacy row carrying the key and an accepted
value (Product.objects.filter(legacy_attribute_set__key=..., ...)). -/
def legacyIds (db : DB) (restrict : Option Nat) (k : String)
    (accept : String → Bool) : List Nat :=
  db.products.filterMap fun p =>
    if catOk restrict p && db.legacy.any (fun l =>
        l.productId == p.id && l.key == k && accept l.value)
    then some p.id else none

/-- Ids of products with a flexible row for the key whose predefined
attribute_value has an accepted value. -/
def flexPredefIds (db : DB) (restrict : Option Nat) (k : String)
    (accept : String → Bool) : List Nat :=
  db.products.filterMap fun p =>
    if catOk restrict p && db.flex.any (fun f =>
        f.productId == p.id && flexAttrKeyIs db f k &&
        (match f.attributeValueId with
         | some vid => db.newValues.any (fun nv => nv.id == vid && accept nv.value)
         | none => false))
    then some p.id else none

/-- Ids of products with a flexible row for the key whose custom_value is
accepted. -/
def flexCustomIds (db : DB) (restrict : Option Nat) (k : String)
    (accept : String → Bool) : List Nat :=
  db.products.filterMap fun p =>
    if catOk restrict p && db.flex.any (fun f =>
        f.productId == p.id && flexAttrKeyIs db f k &&
        (match f.customValue with
         | some cv => accept cv
         | none => false))
    then some p.id else none

/-- all_matching_ids: the union of the three id sets; the source issues the
queries with an exact match for a single value and __in for several. -/
def matchingIds (db : DB) (restrict : Option Nat) (k : String)
    (vs : List String) : List Nat :=
  match vs with
  | [v] =>
      legacyIds db restrict k (fun w => w == v) ++
      flexPredefIds db restrict k (fun w => w == v) ++
      flexCustomIds db restrict k (fun w => w == v)
  | _ =>
      legacyIds db restrict k (fun w => decide (w ∈ vs)) ++
      flexPredefIds db restrict k (fun w => decide (w ∈ vs)) ++
      flexCustomIds db restrict k (fun w => decide (w ∈ vs))

/-- The attribute-filter loop: successive products.filter(id__in=...). -/
def attrStage (db : DB) (restrict : Option Nat)
    (multi : List (String × List String)) (ps : List ProductRow) :
    List ProductRow :=
  multi.foldl (fun acc kv =>
    acc.filter (fun p => decide (p.id ∈ matchingIds db restrict kv.1 kv.2))) ps

/-! ## The two filter views -/

/-- ProductsFilterView.get up to (not including) distinct/order_by: active
scope, bucket collection, then special, price and attribute filters. -/
def productsFilterView (db : DB) (q : Query) : Except ViewErr (List ProductRow) :=
  (applyPrice (priceBucket db q)
    (applySpecial db (activeProducts db) (specialBucket db q))).map
    (attrStage db none (multiBucket db q))

/-- The category view's valid attribute keys: its CategoryAttribute keys. -/
def catValidKeys (db : DB) (cid : Nat) : List String :=
  (db.categoryAttrs.filter (fun ca => ca.categoryId == cid)).map (fun ca => ca.key)

/-- The six price keys the category view recognises. -/
def catPriceKeys : List String :=
  ["price__gte", "price__lte", "price_toman__gte", "price_toman__lte",
   "price_usd__gte", "price_usd__lte"]

/-- The category view's attribute bucket. -/
def catMultiBucket (validKeys : List String) (q : Query) :
    List (String × List String) :=
  (uniqueKeys q []).filterMap fun k =>
    if k ∈ validKeys then
      let vs := (getlist q k).filter nonBlank
      if vs.isEmpty then none else some (k, vs)
    else none

/-- The category view's price bucket. -/
def catPriceBucket (validKeys : List String) (q : Query) :
    List (String × String) :=
  (uniqueKeys q []).filterMap fun k =>
    if k ∈ validKeys then none
    else if k ∈ catPriceKeys then
      match qget q k with
      | some v => if nonBlank v then some (k, v) else none
      | none => none
    else none

/-- CategoryProductFilterView.get up to distinct/order_by: 404 on an
unknown category; empty result when query parameters were supplied but no
attribute or price filter was collected; otherwise the category's active
products with price and attribute filters applied (the matching-id queries
carry the category restriction). -/
def categoryProductFilterView (db : DB) (cid : Nat) (q : Query) :
    Except ViewErr (List ProductRow) :=
  match djangoGet db.categories (fun c => c.id == cid) with
  | .error .doesNotExist => .error .categoryNotFound
  | .error .multiple => .error .multiple
  | .ok cat =>
    let multi := catMultiBucket (catValidKeys db cat.id) q
    let price := catPriceBucket (catValidKeys db cat.id) q
    if !q.isEmpty && multi.isEmpty && price.isEmpty then .ok []
    else
      let base := db.products.filter (fun p => p.categoryId == cat.id && p.isActive)
      (applyPrice price base).map (attrStage db (some cat.id) multi)

/-! ## Bucket lemmas -/

theorem mem_uniqueKeys {q : Query} {seen : List String} {k : String}
    (h : k ∈ uniqueKeys q seen) : ∃ kv ∈ q, kv.1 = k := by
  induction q generalizing seen with
  | nil => simp [uniqueKeys] at h
  | cons kv rest ih =>
    simp only [uniqueKeys] at h
    by_cases hc : kv.1 ∈ seen
    · rw [if_pos hc] at h
      obtain ⟨kv', h1, h2⟩ := ih h
      exact ⟨kv', List.mem_cons_of_mem _ h1, h2⟩
    · rw [if_neg hc] at h
      rcases List.mem_cons.mp h with rfl | h2
      · exact ⟨kv, List.mem_cons_self _ _, rfl⟩
      · obtain ⟨kv', h1, h3⟩ := ih h2
        exact ⟨kv', List.mem_cons_of_mem _ h1, h3⟩

theorem buckets_of_unrecognized (db : DB) (q : Query)
    (h : ∀ kv ∈ q, kv.1 ∉ allAttrKeys db ∧ isPriceKey kv.1 = false ∧
      kv.1 ∉ specialKeyList) :
    multiBucket db q = [] ∧ priceBucket db q = [] ∧ specialBucket db q = [] := by
  refine ⟨?_, ?_, ?_⟩
  · unfold multiBucket
    rw [List.filterMap_eq_nil_iff]
    intro k hk
    obtain ⟨kv, hkv, rfl⟩ := mem_uniqueKeys hk
    obtain ⟨h1, h2, h3⟩ := h kv hkv
    simp [h1]
  · unfold priceBucket
    rw [List.filterMap_eq_nil_iff]
    intro k hk
    obtain ⟨kv, hkv, rfl⟩ := mem_uniqueKeys hk
    obtain ⟨h1, h2, h3⟩ := h kv hkv
    simp [h1, h2]
  · unfold specialBucket
    rw [List.filterMap_eq_nil_iff]
    intro k hk
    obtain ⟨kv, hkv, rfl⟩ := mem_uniqueKeys hk
    obtain ⟨h1, h2, h3⟩ := h kv hkv
    simp [h1, h2, h3]

/-! ## Theorems for claim C1 -/

/-- A product and database with one active product and no attribute data. -/
def pNoise : ProductRow := ⟨1, "watch", "", "", "", 1, none, 0, none, true, false, 0⟩

/-- The database for the nonsense-key counterexample. -/
def dbNoise : DB :=
  { categories := [⟨1, none, "auto"⟩], products := [pNoise], legacy := [],
    attributes := [], newValues := [], flex := [], categoryAttrs := [] }

/-- Counterexample to C1 as stated: the general products filter ignores a
request consisting of the single unrecognised key foo=bar and returns the
whole scoped (active) product set — not the empty set. -/
theorem c1_nonsense_key_counterexample :
    productsFilterView dbNoise [("foo", "bar")] = .ok [pNoise] ∧
    ([pNoise] : List ProductRow) ≠ [] :=
  ⟨rfl, by simp⟩

/-- C1 (amended): the strict empty-result policy lives only in the
category-scoped view — there, supplied parameters that produce no attribute
and no price filter yield the empty set.  The general ProductsFilterView
silently ignores unrecognised keys and returns the scoped (active) product
set; with no parameters at all both views return their scoped set. -/
theorem c1_unmatched_filter_policy (db : DB) (q : Query) (cid : Nat)
    (cat : CategoryRow)
    (hcat : djangoGet db.categories (fun c => c.id == cid) = .ok cat) :
    (q ≠ [] → catMultiBucket (catValidKeys db cat.id) q = [] →
      catPriceBucket (catValidKeys db cat.id) q = [] →
      categoryProductFilterView db cid q = .ok []) ∧
    ((∀ kv ∈ q, kv.1 ∉ allAttrKeys db ∧ isPriceKey kv.1 = false ∧
        kv.1 ∉ specialKeyList) →
      productsFilterView db q = .ok (activeProducts db)) ∧
    (categoryProductFilterView db cid [] =
      .ok (db.products.filter (fun p => p.categoryId == cat.id && p.isActive))) ∧
    (productsFilterView db [] = .ok (activeProducts db)) := by
  refine ⟨?_, ?_, ?_, ?_⟩
  · intro hq hm hp
    have hq' : q.isEmpty = false := by
      cases q with
      | nil => exact absurd rfl hq
      | cons a l => rfl
    simp [categoryProductFilterView, hcat, hq', hm, hp]
  · intro h
    obtain ⟨hm, hp, hs⟩ := buckets_of_unrecognized db q h
    simp only [productsFilterView, hm, hp, hs]
    rfl
  · simp only [categoryProductFilterView, hcat]
    rfl
  · rfl

/-- Concrete behaviour through `c1_unmatched_filter_policy`: foo=bar gives
the empty set on the category view and the unfiltered active set on the
general view. -/
theorem c1_unmatched_filter_policy_witness :
    categoryProductFilterView dbNoise 1 [("foo", "bar")] = .ok [] ∧
    productsFilterView dbNoise [("foo", "bar")] = .ok (activeProducts dbNoise) :=
  ⟨(c1_unmatched_filter_policy dbNoise [("foo", "bar")] 1 ⟨1, none, "auto"⟩ rfl).1
      (by simp) rfl rfl,
   (c1_unmatched_filter_policy dbNoise [("foo", "bar")] 1 ⟨1, none, "auto"⟩
      rfl).2.1 (by decide)⟩

/-! ## Theorems for claim C10 -/

/-- C10: a falsy is_active value (false/0/no) in the general products
filter rebuilds the scope from all inactive products and re-applies only
the category constraint, so a q/search text filter and an is_new_arrival
constraint in the same request are silently discarded from the result,
while price and attribute filters still apply — they run after the
rebuild.  The second part: any two requests that agree on the attribute
and price buckets and on the category parameter, both carrying the falsy
is_active, produce the same result whatever their q/search/is_new_arrival
parameters say. -/
theorem c10_inactive_rebuild (db : DB) (q : Query) (v : String)
    (hact : sfind (specialBucket db q) "is_active" = some v)
    (hfalse : pyLower v ∈ falseStrings) :
    productsFilterView db q =
      (applyPrice (priceBucket db q)
        (applyCategoryParam (sfind (specialBucket db q) "category")
          (db.products.filter (fun p => !p.isActive)))).map
        (attrStage db none (multiBucket db q)) ∧
    (∀ q₂, multiBucket db q₂ = multiBucket db q →
      priceBucket db q₂ = priceBucket db q →
      sfind (specialBucket db q₂) "category" =
        sfind (specialBucket db q) "category" →
      sfind (specialBucket db q₂) "is_active" = some v →
      productsFilterView db q₂ = productsFilterView db q) := by
  have key : ∀ (q' : Query), sfind (specialBucket db q') "is_active" = some v →
      productsFilterView db q' =
        (applyPrice (priceBucket db q')
          (applyCategoryParam (sfind (specialBucket db q') "category")
            (db.products.filter (fun p => !p.isActive)))).map
          (attrStage db none (multiBucket db q')) := by
    intro q' hact'
    have hsp : applySpecial db (activeProducts db) (specialBucket db q') =
        applyCategoryParam (sfind (specialBucket db q') "category")
          (db.products.filter (fun p => !p.isActive)) := by
      simp only [applySpecial, hact']
      rw [if_pos hfalse]
    unfold productsFilterView
    rw [hsp]
  refine ⟨key q hact, ?_⟩
  intro q₂ hm hp hc hact₂
  rw [key q₂ hact₂, key q hact, hm, hp, hc]

/-- An active and an inactive product for exercising the rebuild. -/
def dbC10 : DB :=
  { categories := [⟨1, none, "auto"⟩],
    products := [⟨1, "watch", "", "", "", 1, none, 0, none, true, false, 10⟩,
                 ⟨2, "watch", "", "", "", 1, none, 0, none, false, false, 5⟩],
    legacy := [], attributes := [], newValues := [], flex := [],
    categoryAttrs := [] }

/-- Concretely, via `c10_inactive_rebuild`: with is_active=false the
search and new-arrival parameters make no difference to the result. -/
theorem c10_inactive_rebuild_witness :
    productsFilterView dbC10 [("is_active", "false")] =
      productsFilterView dbC10
        [("is_active", "false"), ("q", "watch"), ("is_new_arrival", "yes")] :=
  (c10_inactive_rebuild dbC10
      [("is_active", "false"), ("q", "watch"), ("is_new_arrival", "yes")]
      "false" rfl (by decide)).2
    [("is_active", "false")] rfl rfl rfl rfl

/-! ## Declarative characterisation of the per-key candidate sets -/

/-- The product has a legacy row with this key and a requested value. -/
def LegacyMatch (db : DB) (p : ProductRow) (k : String) (vs : List String) :
    Prop :=
  ∃ l ∈ db.legacy, l.productId = p.id ∧ l.key = k ∧ l.value ∈ vs

/-- The product has a flexible row for an attribute with this key whose
predefined attribute_value carries a requested value. -/
def FlexPredefMatch (db : DB) (p : ProductRow) (k : String)
    (vs : List String) : Prop :=
  ∃ f ∈ db.flex, f.productId = p.id ∧
    (∃ a ∈ db.attributes, a.id = f.attributeId ∧ a.key = k) ∧
    ∃ nv ∈ db.newValues, f.attributeValueId = some nv.id ∧ nv.value ∈ vs

/-- The product has a flexible row for an attribute with this key whose
custom_value is a requested value. -/
def FlexCustomMatch (db : DB) (p : ProductRow) (k : String)
    (vs : List String) : Prop :=
  ∃ f ∈ db.flex, f.productId = p.id ∧
    (∃ a ∈ db.attributes, a.id = f.attributeId ∧ a.key = k) ∧
    ∃ v ∈ vs, f.customValue = some v

theorem mem_filterMap_ids {l : List ProductRow} {cond : ProductRow → Bool}
    {p : ProductRow} (hmem : p ∈ l) (hnd : (l.map (fun x => x.id)).Nodup) :
    p.id ∈ l.filterMap (fun x => if cond x then some x.id else none) ↔
      cond p = true := by
  constructor
  · intro h
    obtain ⟨x, hx, hxe⟩ := List.mem_filterMap.mp h
    by_cases hc : cond x = true
    · rw [if_pos hc] at hxe
      have hid : x.id = p.id := by simpa using hxe
      have hxp : x = p := List.inj_on_of_nodup_map hnd hx hmem hid
      rwa [hxp] at hc
    · rw [if_neg hc] at hxe
      cases hxe
  · intro h
    exact List.mem_filterMap.mpr ⟨p, hmem, by rw [if_pos h]⟩

theorem flexAttrKeyIs_iff {db : DB} {f : FlexRow} {k : String} :
    flexAttrKeyIs db f k = true ↔
      ∃ a ∈ db.attributes, a.id = f.attributeId ∧ a.key = k := by
  simp [flexAttrKeyIs, List.any_eq_true]

theorem mem_legacyIds {db : DB} {restrict : Option Nat} {k : String}
    {vs : List String} {accept : String → Bool} {p : ProductRow}
    (hacc : ∀ w, accept w = true ↔ w ∈ vs)
    (hmem : p ∈ db.products)
    (hnd : (db.products.map (fun x => x.id)).Nodup) :
    p.id ∈ legacyIds db restrict k accept ↔
      catOk restrict p = true ∧ LegacyMatch db p k vs := by
  unfold legacyIds
  rw [mem_filterMap_ids hmem hnd]
  unfold LegacyMatch
  simp only [Bool.and_eq_true, List.any_eq_true, beq_iff_eq, hacc, and_assoc]

theorem predef_leaf_iff {db : DB} {f : FlexRow} {accept : String → Bool}
    {vs : List String} (hacc : ∀ w, accept w = true ↔ w ∈ vs) :
    (match f.attributeValueId with
      | some vid => db.newValues.any (fun nv => nv.id == vid && accept nv.value)
      | none => false) = true ↔
      ∃ nv ∈ db.newValues, f.attributeValueId = some nv.id ∧ nv.value ∈ vs := by
  cases hv : f.attributeValueId with
  | none => simp
  | some vid =>
    simp only [List.any_eq_true, Bool.and_eq_true, beq_iff_eq, hacc,
      Option.some.injEq]
    constructor
    · rintro ⟨nv, hnv, rfl, hval⟩
      exact ⟨nv, hnv, rfl, hval⟩
    · rintro ⟨nv, hnv, hid, hval⟩
      exact ⟨nv, hnv, hid.symm, hval⟩

theorem custom_leaf_iff {f : FlexRow} {accept : String → Bool}
    {vs : List String} (hacc : ∀ w, accept w = true ↔ w ∈ vs) :
    (match f.customValue with
      | some cv => accept cv
      | none => false) = true ↔
      ∃ v ∈ vs, f.customValue = some v := by
  cases hv : f.customValue with
  | none => simp
  | some cv =>
    rw [hacc]
    constructor
    · intro h
      exact ⟨cv, h, rfl⟩
    · rintro ⟨v, hvs, hveq⟩
      obtain rfl : cv = v := by simpa using hveq
      exact hvs

theorem mem_flexPredefIds {db : DB} {restrict : Option Nat} {k : String}
    {vs : List String} {accept : String → Bool} {p : ProductRow}
    (hacc : ∀ w, accept w = true ↔ w ∈ vs)
    (hmem : p ∈ db.products)
    (hnd : (db.products.map (fun x => x.id)).Nodup) :
    p.id ∈ flexPredefIds db restrict k accept ↔
      catOk restrict p = true ∧ FlexPredefMatch db p k vs := by
  unfold flexPredefIds
  rw [mem_filterMap_ids hmem hnd]
  unfold FlexPredefMatch
  simp only [Bool.and_eq_true, List.any_eq_true, beq_iff_eq,
    flexAttrKeyIs_iff, predef_leaf_iff hacc, and_assoc]

theorem mem_flexCustomIds {db : DB} {restrict : Option Nat} {k : String}
    {vs : List String} {accept : String → Bool} {p : ProductRow}
    (hacc : ∀ w, accept w = true ↔ w ∈ vs)
    (hmem : p ∈ db.products)
    (hnd : (db.products.map (fun x => x.id)).Nodup) :
    p.id ∈ flexCustomIds db restrict k accept ↔
      catOk restrict p = true ∧ FlexCustomMatch db p k vs := by
  unfold flexCustomIds
  rw [mem_filterMap_ids hmem hnd]
  unfold FlexCustomMatch
  simp only [Bool.and_eq_true, List.any_eq_true, beq_iff_eq,
    flexAttrKeyIs_iff, custom_leaf_iff hacc, and_assoc]

theorem mem_matchingIds {db : DB} {restrict : Option Nat} {k : String}
    {vs : List String} {p : ProductRow} (hmem : p ∈ db.products)
    (hnd : (db.products.map (fun x => x.id)).Nodup) :
    p.id ∈ matchingIds db restrict k vs ↔
      catOk restrict p = true ∧
        (LegacyMatch db p k vs ∨ FlexPredefMatch db p k vs ∨
         FlexCustomMatch db p k vs) := by
  have run : ∀ accept : String → Bool, (∀ w, accept w = true ↔ w ∈ vs) →
      (p.id ∈ (legacyIds db restrict k accept ++
          (flexPredefIds db restrict k accept ++
            flexCustomIds db restrict k accept)) ↔
        catOk restrict p = true ∧
          (LegacyMatch db p k vs ∨ FlexPredefMatch db p k vs ∨
           FlexCustomMatch db p k vs)) := by
    intro accept hacc
    simp only [List.mem_append, mem_legacyIds hacc hmem hnd,
      mem_flexPredefIds hacc hmem hnd, mem_flexCustomIds hacc hmem hnd]
    tauto
  rcases vs with _ | ⟨v, _ | ⟨v₂, rest⟩⟩
  · simpa [matchingIds] using
      run (fun w => decide (w ∈ ([] : List String))) (fun w => by simp)
  · simpa [matchingIds] using run (fun w => w == v) (fun w => by simp)
  · simpa [matchingIds] using
      run (fun w => decide (w ∈ v :: v₂ :: rest)) (fun w => by simp)

theorem mem_attrStage {db : DB} {restrict : Option Nat}
    (multi : List (String × List String)) (ps : List ProductRow)
    (p : ProductRow) :
    p ∈ attrStage db restrict multi ps ↔
      p ∈ ps ∧ ∀ kv ∈ multi, p.id ∈ matchingIds db restrict kv.1 kv.2 := by
  induction multi generalizing ps with
  | nil => simp [attrStage]
  | cons kv rest ih =>
    show p ∈ attrStage db restrict rest
        (ps.filter (fun p => decide (p.id ∈ matchingIds db restrict kv.1 kv.2))) ↔ _
    rw [ih]
    simp only [List.mem_filter, decide_eq_true_eq, List.forall_mem_cons]
    tauto

/-! ## Theorems for claim C2 -/

/-- C2: per attribute key the candidate set is the union of the three
storage schemes — a legacy row match, a flexible row with a matching
predefined value, or a flexible row with a matching custom value, each OR
over the requested values — and the final result intersects the scoped set
with every requested key's candidate set (AND across keys).  Stated for
the general view and, in the last conjunct, for the category-scoped view
(whose candidate queries carry the category restriction). -/
theorem c2_union_within_key_intersection_across_keys (db : DB) (q : Query)
    (base : List ProductRow)
    (hnd : (db.products.map (fun x => x.id)).Nodup)
    (hbase : applyPrice (priceBucket db q)
        (applySpecial db (activeProducts db) (specialBucket db q)) = .ok base) :
    productsFilterView db q = .ok (attrStage db none (multiBucket db q) base) ∧
    (∀ p ∈ db.products,
      (p ∈ attrStage db none (multiBucket db q) base ↔
        p ∈ base ∧ ∀ kv ∈ multiBucket db q,
          LegacyMatch db p kv.1 kv.2 ∨ FlexPredefMatch db p kv.1 kv.2 ∨
          FlexCustomMatch db p kv.1 kv.2)) ∧
    (∀ cid cat base2,
      djangoGet db.categories (fun c => c.id == cid) = .ok cat →
      (!q.isEmpty && (catMultiBucket (catValidKeys db cat.id) q).isEmpty &&
        (catPriceBucket (catValidKeys db cat.id) q).isEmpty) = false →
      applyPrice (catPriceBucket (catValidKeys db cat.id) q)
        (db.products.filter (fun p => p.categoryId == cat.id && p.isActive)) =
        .ok base2 →
      categoryProductFilterView db cid q =
        .ok (attrStage db (some cat.id)
          (catMultiBucket (catValidKeys db cat.id) q) base2) ∧
      ∀ p ∈ db.products, p.categoryId = cat.id →
        (p ∈ attrStage db (some cat.id)
            (catMultiBucket (catValidKeys db cat.id) q) base2 ↔
          p ∈ base2 ∧ ∀ kv ∈ catMultiBucket (catValidKeys db cat.id) q,
            LegacyMatch db p kv.1 kv.2 ∨ FlexPredefMatch db p kv.1 kv.2 ∨
            FlexCustomMatch db p kv.1 kv.2)) := by
  refine ⟨?_, ?_, ?_⟩
  · show Except.map (attrStage db none (multiBucket db q))
      (applyPrice (priceBucket db q)
        (applySpecial db (activeProducts db) (specialBucket db q))) =
      Except.ok (attrStage db none (multiBucket db q) base)
    rw [hbase]
    rfl
  · intro p hp
    rw [mem_attrStage]
    constructor
    · rintro ⟨h1, h2⟩
      exact ⟨h1, fun kv hkv => ((mem_matchingIds hp hnd).mp (h2 kv hkv)).2⟩
    · rintro ⟨h1, h2⟩
      refine ⟨h1, fun kv hkv => ?_⟩
      exact (mem_matchingIds hp hnd).mpr ⟨rfl, h2 kv hkv⟩
  · intro cid cat base2 hcat hguard hbase2
    constructor
    · simp only [categoryProductFilterView, hcat, hguard, Bool.false_eq_true,
        if_false]
      rw [hbase2]
      rfl
    · intro p hp hpcat
      rw [mem_attrStage]
      constructor
      · rintro ⟨h1, h2⟩
        exact ⟨h1, fun kv hkv => ((mem_matchingIds hp hnd).mp (h2 kv hkv)).2⟩
      · rintro ⟨h1, h2⟩
        refine ⟨h1, fun kv hkv => ?_⟩
        refine (mem_matchingIds hp hnd).mpr ⟨?_, h2 kv hkv⟩
        simp [catOk, hpcat]

/-- A fixture exercising both storage schemes: product 1 carries
brand=Nike in the legacy store, product 2 carries it through a predefined
flexible value. -/
def dbBrand : DB :=
  { categories := [⟨1, none, "auto"⟩],
    products := [⟨1, "A", "", "", "", 1, none, 0, none, true, false, 3⟩,
                 ⟨2, "B", "", "", "", 1, none, 0, none, true, false, 2⟩],
    legacy := [⟨1, "brand", "Nike"⟩],
    attributes := [⟨1, "brand"⟩],
    newValues := [⟨7, 1, "Nike"⟩],
    flex := [⟨2, 1, some 7, none⟩],
    categoryAttrs := [⟨1, "brand"⟩] }

/-- Concrete run of the general view on the two-scheme fixture through
`c2_union_within_key_intersection_across_keys`. -/
theorem c2_union_within_key_witness :
    productsFilterView dbBrand [("brand", "Nike")] =
      .ok (attrStage dbBrand none (multiBucket dbBrand [("brand", "Nike")])
        (activeProducts dbBrand)) :=
  (c2_union_within_key_intersection_across_keys dbBrand [("brand", "Nike")]
    (activeProducts dbBrand) (by decide) rfl).1

/-! ## Ordering contract (distinct().order_by('-created_at')) -/

/-- created_at descending — the only sort key the views request. -/
def createdDesc (a b : ProductRow) : Prop := b.createdAt ≤ a.createdAt

instance : DecidableRel createdDesc := fun a b =>
  inferInstanceAs (Decidable (b.createdAt ≤ a.createdAt))

instance : IsTotal ProductRow createdDesc :=
  ⟨fun a b => Int.le_total b.createdAt a.createdAt⟩

instance : IsTrans ProductRow createdDesc :=
  ⟨fun _ _ _ hab hbc => le_trans hbc hab⟩

/-- The contract of `.distinct().order_by('-created_at')` applied to the
filtered set: the emitted sequence is duplicate-free, has exactly the
filtered members, and is sorted by created_at descending.  The SQL order
of rows with equal created_at is not constrained any further. -/
def orderedOutput (res out : List ProductRow) : Prop :=
  out.Nodup ∧ (∀ p ∈ out, p ∈ res) ∧ (∀ p ∈ res, p ∈ out) ∧
    out.Sorted createdDesc

instance (res out : List ProductRow) : Decidable (orderedOutput res out) := by
  unfold orderedOutput
  infer_instance

/-! ## The filtered set never leaves db.products -/

theorem applyCategoryParam_sublist (v : Option String) (ps : List ProductRow) :
    (applyCategoryParam v ps).Sublist ps := by
  unfold applyCategoryParam
  split
  · exact List.Sublist.refl ps
  · split
    · exact List.filter_sublist ps
    · exact List.Sublist.refl ps

theorem applySpecial_sublist (db : DB) (ps0 : List ProductRow)
    (sp : List (String × String)) (h0 : ps0.Sublist db.products) :
    (applySpecial db ps0 sp).Sublist db.products := by
  simp only [applySpecial]
  repeat' split
  all_goals
    first
    | exact (applyCategoryParam_sublist _ _).trans (List.filter_sublist _)
    | exact ((List.filter_sublist _).trans ((List.filter_sublist _).trans
        ((applyCategoryParam_sublist _ _).trans h0)))
    | exact ((List.filter_sublist _).trans
        ((applyCategoryParam_sublist _ _).trans h0))
    | exact (applyCategoryParam_sublist _ _).trans h0

theorem applyPrice_sublist (pf : List (String × String))
    (ps out : List ProductRow) (h : applyPrice pf ps = .ok out) :
    out.Sublist ps := by
  induction pf generalizing ps with
  | nil =>
    obtain rfl : ps = out := by simpa [applyPrice] using h
    exact List.Sublist.refl ps
  | cons kv rest ih =>
    simp only [applyPrice] at h
    split at h
    · exact ih ps h
    · split at h
      · exact absurd h (by simp)
      · exact (ih _ h).trans (List.filter_sublist _)

theorem attrStage_sublist (db : DB) (restrict : Option Nat)
    (multi : List (String × List String)) (ps : List ProductRow) :
    (attrStage db restrict multi ps).Sublist ps := by
  induction multi generalizing ps with
  | nil => exact List.Sublist.refl ps
  | cons kv rest ih =>
    show (attrStage db restrict rest
        (ps.filter (fun p =>
          decide (p.id ∈ matchingIds db restrict kv.1 kv.2)))).Sublist ps
    exact (ih _).trans (List.filter_sublist _)

theorem productsFilterView_sublist {db : DB} {q : Query}
    {res : List ProductRow} (h : productsFilterView db q = .ok res) :
    res.Sublist db.products := by
  unfold productsFilterView at h
  cases hap : applyPrice (priceBucket db q)
      (applySpecial db (activeProducts db) (specialBucket db q)) with
  | error e =>
    rw [hap] at h
    simp [Except.map] at h
  | ok mid =>
    rw [hap] at h
    obtain rfl : attrStage db none (multiBucket db q) mid = res := by
      simpa [Except.map] using h
    exact ((attrStage_sublist _ _ _ _).trans
      (applyPrice_sublist _ _ _ hap)).trans
      (applySpecial_sublist db _ _ (List.filter_sublist _))

/-! ## Theorems for claim C7 -/

/-- Two active products sharing a created_at instant. -/
def pTieA : ProductRow := ⟨1, "A", "", "", "", 1, none, 0, none, true, false, 5⟩

/-- The second product of the tie. -/
def pTieB : ProductRow := ⟨2, "B", "", "", "", 1, none, 0, none, true, false, 5⟩

/-- The database holding the tied pair. -/
def dbTie : DB :=
  { categories := [⟨1, none, "auto"⟩], products := [pTieA, pTieB],
    legacy := [], attributes := [], newValues := [], flex := [],
    categoryAttrs := [] }

/-- Counterexample to C7 as stated: both orders of the two products with
equal created_at satisfy the code's ordering contract (it carries no id
tiebreak), so equal inputs are not guaranteed an identical sequence. -/
theorem c7_no_id_tiebreak_counterexample :
    productsFilterView dbTie [] = .ok [pTieA, pTieB] ∧
    orderedOutput [pTieA, pTieB] [pTieA, pTieB] ∧
    orderedOutput [pTieA, pTieB] [pTieB, pTieA] ∧
    ([pTieA, pTieB] : List ProductRow) ≠ [pTieB, pTieA] := by
  refine ⟨rfl, ?_, ?_, ?_⟩ <;> decide

/-- C7 (amended): the final stage deduplicates and orders by created_at
descending — every output satisfying the ordering contract is
duplicate-free, sorted by created_at descending and carries exactly the
filtered members, and such an output exists — but no id tiebreak is
applied, so the relative order of products sharing a created_at is not
determined. -/
theorem c7_dedup_sorted_no_id_tiebreak (db : DB) (q : Query)
    (res : List ProductRow)
    (hnd : (db.products.map (fun x => x.id)).Nodup)
    (hres : productsFilterView db q = .ok res) :
    (∃ out, orderedOutput res out) ∧
    (∀ out, orderedOutput res out →
      out.Nodup ∧ out.Sorted createdDesc ∧ ∀ p, (p ∈ out ↔ p ∈ res)) := by
  constructor
  · have hresnd : res.Nodup :=
      ((List.Nodup.of_map _ hnd).sublist (productsFilterView_sublist hres))
    refine ⟨List.insertionSort createdDesc res, ?_, ?_, ?_, ?_⟩
    · exact ((List.perm_insertionSort createdDesc res).nodup_iff).mpr hresnd
    · intro p hp
      exact (List.perm_insertionSort createdDesc res).mem_iff.mp hp
    · intro p hp
      exact (List.perm_insertionSort createdDesc res).mem_iff.mpr hp
    · exact List.sorted_insertionSort createdDesc res
  · rintro out ⟨h1, h2, h3, h4⟩
    exact ⟨h1, h4, fun p => ⟨h2 p, h3 p⟩⟩

/-- Existence of an ordered output for the tied pair, through
`c7_dedup_sorted_no_id_tiebreak`. -/
theorem c7_dedup_sorted_no_id_tiebreak_witness :
    ∃ out, orderedOutput [pTieA, pTieB] out :=
  (c7_dedup_sorted_no_id_tiebreak dbTie [] [pTieA, pTieB]
    (by decide) rfl).1
